import Mathlib

/-!
Shallow embedding of the discovery-correlation-dispatch pipeline of the
Solana address-poisoning repository.

Namespace `Generation` embeds `src/modules/generation.js` (similarity
correlator and rate limiter); namespace `Transaction` embeds
`src/modules/transaction.js` (target resolver, parallel dispatcher, and
transaction logging).  RPC calls and file persistence are modelled as
explicit environment parameters; `await`-interleaved JavaScript runs each
synchronous block atomically, so stateful loops are modelled as folds over
explicit inputs.  Times are rational numbers measured in seconds (the
source measures milliseconds and divides by 1000; the change of unit is a
bijective rescaling of every timestamp).
-/

namespace Generation

/-- Constant `MIN_FRONT_SIMILARITY` from generation.js line 24. -/
def MIN_FRONT_SIMILARITY : ℕ := 4

/-- Entry of the `generatedKeypairs` map: `{ publicKey, secretKey }`. -/
structure KeypairData where
  publicKey : String
  secretKey : String
deriving DecidableEq, Repr

/-- A record of the `similarAddresses` set, as built at generation.js
lines 91-99. -/
structure SimilarAddress where
  activeAddress : String
  generatedPublicKey : String
  generatedSecretKey : String
  activeBalance : ℚ
  frontMatches : ℕ
  endMatches : ℕ
  lastActivity : String
deriving DecidableEq, Repr

/-- Count `[...firstSix].filter((char, index) => char === generatedFirstSix[index]).length`
(generation.js line 87).  Indexing past the end of the second list yields
`undefined`, which compares unequal, exactly as `zip` truncates. -/
def frontMatchCount (firstSix generatedFirstSix : List Char) : ℕ :=
  (firstSix.zip generatedFirstSix).countP fun p => p.1 == p.2

/-- Function `countEndMatches` (generation.js lines 110-118): iterate the
positions of the second argument, counting positions whose character equals
the character of the first argument at the same index. -/
def countEndMatches (lastSix activeLastSix : List Char) : ℕ :=
  (activeLastSix.zip lastSix).countP fun p => p.1 == p.2

/-- The string `activePublicKey.slice(0, 6)` as a character list. -/
def firstSixOf (s : String) : List Char := (s.take 6).toList

/-- The character list of `s.slice(-6)`. -/
def lastSixOf (s : String) : List Char := (s.takeRight 6).toList

/-- The `similarAddress` object built at generation.js lines 91-99 for one
pool entry. -/
def matchRecord (activePublicKey : String) (activeBalance : ℚ)
    (lastActivity : String) (kp : KeypairData) : SimilarAddress :=
  { activeAddress := activePublicKey
    generatedPublicKey := kp.publicKey
    generatedSecretKey := kp.secretKey
    activeBalance := activeBalance
    frontMatches := frontMatchCount (firstSixOf activePublicKey) (firstSixOf kp.publicKey)
    endMatches := countEndMatches (lastSixOf activePublicKey) (lastSixOf kp.publicKey)
    lastActivity := lastActivity }

/-- The duplicate test at generation.js line 100: some record of the set
has the given active address and generated public key. -/
def hasPair (similarAddresses : List SimilarAddress) (a g : String) : Bool :=
  similarAddresses.any fun addr => addr.activeAddress == a && addr.generatedPublicKey == g

/-- The prefix `firstSix.slice(0, MIN_FRONT_SIMILARITY)` where
`firstSix = s.slice(0, 6)`. -/
def front4 (s : String) : String := (s.take 6).take MIN_FRONT_SIMILARITY

/-- Function `findSimilarKeysForActiveAddresses` (generation.js lines
80-108): scan the generated-keypair pool in iteration order; for each entry
whose first four characters equal the first four characters of the active
address, append a match record unless the live set already holds one for
the same `(activeAddress, generatedPublicKey)` pair.  The JavaScript `Set`
preserves insertion order, so it is modelled as a list appended at the end;
the file appends are persistence side effects outside the model. -/
def findSimilarKeysForActiveAddresses (activePublicKey : String) (activeBalance : ℚ)
    (lastActivity : String) (generatedKeypairs : List KeypairData)
    (similarAddresses : List SimilarAddress) : List SimilarAddress :=
  generatedKeypairs.foldl (fun acc kp =>
    if front4 activePublicKey == front4 kp.publicKey then
      if hasPair acc activePublicKey kp.publicKey then acc
      else acc ++ [matchRecord activePublicKey activeBalance lastActivity kp]
    else acc) similarAddresses

/-- Value of an `activeAddresses` map entry. -/
structure ActiveInfo where
  balance : ℚ
  lastActivity : String
deriving DecidableEq, Repr

/-- Function `checkForExistingSimilarities` (generation.js lines 120-124):
re-run the correlator for every known active address against the current
pool. -/
def checkForExistingSimilarities (activeAddresses : List (String × ActiveInfo))
    (generatedKeypairs : List KeypairData)
    (similarAddresses : List SimilarAddress) : List SimilarAddress :=
  activeAddresses.foldl (fun acc entry =>
    findSimilarKeysForActiveAddresses entry.1 entry.2.balance entry.2.lastActivity
      generatedKeypairs acc) similarAddresses

/-- Mutable state of a `RateLimiter` instance (generation.js lines 29-55):
a fractional token count and the wall-clock instant of the last refill. -/
structure RLState where
  tokens : ℚ
  lastRefilled : ℚ
deriving DecidableEq, Repr

/-- Method `refillTokens` (generation.js lines 48-54): add
`timePassed * (maxRequests / perSeconds)` tokens, capped at capacity, and
stamp the current time. -/
def refillTokens (maxRequests perSeconds : ℚ) (s : RLState) (now : ℚ) : RLState :=
  { tokens := min maxRequests (s.tokens + (now - s.lastRefilled) * (maxRequests / perSeconds))
    lastRefilled := now }

/-- One iteration of the `waitForToken` loop (generation.js lines 37-46) at
wall-clock instant `now`: refill, then grant (decrementing) exactly when the
refilled token count is positive.  JavaScript is single threaded, so each
refill-test-decrement block runs atomically; concurrent callers interleave
whole attempts, which is what a list of attempt instants captures. -/
def waitForTokenAttempt (maxRequests perSeconds : ℚ) (s : RLState) (now : ℚ) :
    RLState × Bool :=
  if 0 < (refillTokens maxRequests perSeconds s now).tokens then
    ({ tokens := (refillTokens maxRequests perSeconds s now).tokens - 1
       lastRefilled := now }, true)
  else (refillTokens maxRequests perSeconds s now, false)

/-- Run a sequence of acquisition attempts, returning the final state. -/
def runAttempts (maxRequests perSeconds : ℚ) (s : RLState) : List ℚ → RLState
  | [] => s
  | t :: ts => runAttempts maxRequests perSeconds
      (waitForTokenAttempt maxRequests perSeconds s t).1 ts

/-- Number of granted acquisitions along a sequence of attempts. -/
def grantedCount (maxRequests perSeconds : ℚ) (s : RLState) : List ℚ → ℕ
  | [] => 0
  | t :: ts =>
    let r := waitForTokenAttempt maxRequests perSeconds s t
    (if r.2 then 1 else 0) + grantedCount maxRequests perSeconds r.1 ts

/-- Initial state set by the constructor (generation.js lines 30-35):
a full bucket stamped at construction time. -/
def initialRLState (maxRequests : ℚ) (constructedAt : ℚ) : RLState :=
  { tokens := maxRequests, lastRefilled := constructedAt }

/-- Predicate for the invariant of §3 of the spec: at most one record per
`(activeAddress, generatedPublicKey)` pair. -/
def uniquePairs (l : List SimilarAddress) : Prop :=
  l.Pairwise fun r1 r2 =>
    ¬(r1.activeAddress = r2.activeAddress ∧ r1.generatedPublicKey = r2.generatedPublicKey)

end Generation

namespace Transaction

/-- List `EXCLUDED_ADDRESSES` from transaction.js lines 14-23. -/
def EXCLUDED_ADDRESSES : List String :=
  ["Vote111111111111111111111111111111111111111",
   "SysvarStakeHistory1111111111111111111111111",
   "Stake11111111111111111111111111111111111111",
   "SysvarC1ock11111111111111111111111111111111",
   "ComputeBudget111111111111111111111111111111",
   "TokenkegQfeZyiNwAJbNbGKPFXCWuBvf9Ss623VQ5DA",
   "ATokenGPvbdGVxr1b2hvZbsiqW5xWH25efTNsLJA8knL",
   "11111111111111111111111111111111"]

/-- Base58 form of `PublicKey.default` (the all-zero public key). -/
def defaultPublicKey : String := "11111111111111111111111111111111"

/-- A target record `{ publicKey, balance }` (balance in SOL). -/
structure Target where
  publicKey : String
  balance : ℚ
deriving DecidableEq, Repr

/-- Result of `getAccountInfo` when the account exists. -/
structure AccountInfoRec where
  executable : Bool
deriving DecidableEq, Repr

/-- Pure snapshot of the ledger responses consumed by `getTargets`:
the fetched transactions behind the recent signatures of the active address
(`none` when the transaction or its message is unavailable, skipped at
transaction.js line 97), account info per address (`none` when the account
does not exist), balances in SOL, and `settings.maxTargets`. -/
structure LedgerEnv where
  transactions : List (Option (List String))
  accountInfo : String → Option AccountInfoRec
  balance : String → ℚ
  maxTargets : ℕ

/-- JavaScript `Set.add` on an insertion-ordered set. -/
def insertUnique (addressSet : List String) (a : String) : List String :=
  if a ∈ addressSet then addressSet else addressSet ++ [a]

/-- Body of the inner loop of `getTargets` (transaction.js lines 99-108)
for one account key: skip executable accounts, missing accounts and
excluded addresses; add the key to the set when it is neither the default
public key nor the active wallet itself. -/
def considerAccountKey (env : LedgerEnv) (activeWallet : String)
    (addressSet : List String) (accountKey : String) : List String :=
  match env.accountInfo accountKey with
  | none => addressSet
  | some info =>
    if info.executable then addressSet
    else if accountKey ∈ EXCLUDED_ADDRESSES then addressSet
    else if accountKey == defaultPublicKey || accountKey == activeWallet then addressSet
    else insertUnique addressSet accountKey

/-- Body of the outer loop of `getTargets` (transaction.js lines 95-109)
for one fetched transaction: skip unavailable transactions, otherwise
consider every referenced account key. -/
def considerTransaction (env : LedgerEnv) (activeWallet : String)
    (addressSet : List String) (otx : Option (List String)) : List String :=
  match otx with
  | none => addressSet
  | some accountKeys => accountKeys.foldl (considerAccountKey env activeWallet) addressSet

/-- The `addressSet` built by the nested loops of transaction.js
lines 94-109. -/
def collectAddressSet (env : LedgerEnv) (activeWallet : String) : List String :=
  env.transactions.foldl (considerTransaction env activeWallet) []

/-- The loop of transaction.js lines 114-118: keep, in order, the balance
results meeting the minimum as target records. -/
def filterByMinBalance (minSolTarget : ℚ) (balanceResults : List (String × ℚ)) :
    List Target :=
  balanceResults.foldl (fun ts br =>
    if minSolTarget ≤ br.2 then ts ++ [⟨br.1, br.2⟩] else ts) []

/-- Body of `getTargets` before the final `slice(0, settings.maxTargets)`
(transaction.js lines 90-125): balance-filter the collected address set in
order, then re-test the own current balance of the active wallet and append
the active wallet when that balance meets the minimum.
`saveTargetAddresses` is a persistence side effect outside the model. -/
def getTargetsFull (env : LedgerEnv) (activeWallet : String) (minSolTarget : ℚ) :
    List Target :=
  let addressArray := collectAddressSet env activeWallet
  let balanceResults := addressArray.map fun address => (address, env.balance address)
  let targets := filterByMinBalance minSolTarget balanceResults
  let activeWalletBalance := env.balance activeWallet
  if minSolTarget ≤ activeWalletBalance then
    targets ++ [⟨activeWallet, activeWalletBalance⟩]
  else targets

/-- Function `getTargets` (transaction.js lines 89-127), including the
final `targets.slice(0, settings.maxTargets)`. -/
def getTargets (env : LedgerEnv) (activeWallet : String) (minSolTarget : ℚ) :
    List Target :=
  (getTargetsFull env activeWallet minSolTarget).take env.maxTargets

/-- Function `getTargetsWithTimeout` (transaction.js lines 251-271).
`getTargets` is deterministic over a fixed ledger snapshot, so the
10-second retry loop returns the same list as the first call; what remains
is the relaxed pass: when the list is still short of `maxTargets` and the
operator confirms (`lowerMinSol`), re-resolve with minimum balance 0. -/
def getTargetsWithTimeout (env : LedgerEnv) (activeWallet : String)
    (minSolTarget : ℚ) (lowerMinSol : Bool) : List Target :=
  let targets := getTargets env activeWallet minSolTarget
  if targets.length < env.maxTargets && lowerMinSol then
    getTargets env activeWallet 0
  else targets

/-- Error thrown by a failed `sendAndConfirmTransaction`, with the logs
recovered at transaction.js lines 153-156. -/
structure TransferFault where
  message : String
  logs : List String
deriving DecidableEq, Repr

/-- Per-target result object of transaction.js lines 150 and 158. -/
structure DispatchOutcome where
  success : Bool
  target : String
  error : Option String
  logs : List String
deriving DecidableEq, Repr

/-- Constant `minBalanceForRent` (transaction.js line 134): 0.00203928 SOL. -/
def minBalanceForRent : ℚ := 203928 / 100000000

/-- Balance fetches return `null` on an RPC error (transaction.js line 33);
under the JavaScript `<` comparison `null` coerces to 0. -/
def jsBalance : Option ℚ → ℚ
  | none => 0
  | some b => b

/-- Function `sendTransactionsInParallel` (transaction.js lines 129-162):
refuse the whole dispatch with an empty result when the dispatch-wallet
balance is below the rent floor; otherwise map every target to its own
independently settled outcome (`Promise.all` preserves the order of the
mapped list).  `transfer` is the transaction-submission capability of the
ledger for one recipient. -/
def sendTransactionsInParallel (transfer : String → Except TransferFault Unit)
    (generatedBalance : Option ℚ) (targets : List Target) : List DispatchOutcome :=
  if jsBalance generatedBalance < minBalanceForRent then []
  else targets.map fun target =>
    match transfer target.publicKey with
    | .ok _ => { success := true, target := target.publicKey, error := none, logs := [] }
    | .error e => { success := false, target := target.publicKey,
                    error := some e.message, logs := e.logs }

/-- One entry of `logEntry.targets` (transaction.js lines 184-188). -/
structure LoggedTarget where
  publicKey : String
  balance : ℚ
  sentSuccessful : Bool
deriving DecidableEq, Repr

/-- The `logEntry` record built by `logTransactionDetails`
(transaction.js lines 170-190). -/
structure TransactionLogEntry where
  timestamp : String
  generatedWalletPublicKey : String
  generatedWalletBalance : ℚ
  generatedWalletKeypair : String
  activeWalletPublicKey : String
  activeWalletBalance : ℚ
  mainWalletBalance : ℚ
  targets : List LoggedTarget
  transactionStatus : String
deriving DecidableEq, Repr

/-- Function `logTransactionDetails` (transaction.js lines 164-193).  The
wall-clock timestamp and the three freshly fetched balances are passed in;
the file append is a persistence side effect outside the model.  Each
per-target flag is `transactionResults.find(...)?.success || false`; the
overall status is the string Success when
`transactionResults.every(result => result.success)` holds and the string
Partial Failure otherwise. -/
def logTransactionDetails (timestamp : String) (generatedPublicKey : String)
    (generatedSecretKey : String) (generatedBalance activeBalance mainWalletBalance : ℚ)
    (activeWallet : String) (targets : List Target)
    (transactionResults : List DispatchOutcome) : TransactionLogEntry :=
  { timestamp := timestamp
    generatedWalletPublicKey := generatedPublicKey
    generatedWalletBalance := generatedBalance
    generatedWalletKeypair := generatedSecretKey
    activeWalletPublicKey := activeWallet
    activeWalletBalance := activeBalance
    mainWalletBalance := mainWalletBalance
    targets := targets.map fun target =>
      { publicKey := target.publicKey
        balance := target.balance
        sentSuccessful :=
          match transactionResults.find? (fun result => result.target == target.publicKey) with
          | some result => result.success
          | none => false }
    transactionStatus :=
      if transactionResults.all (fun result => result.success) then "Success"
      else "Partial Failure" }

end Transaction

namespace Samples

/-- A transfer capability that fails for recipient T1 and succeeds
elsewhere, used to instantiate dispatch theorems. -/
def transferFailT1 : String → Except Transaction.TransferFault Unit :=
  fun recipient =>
    if recipient = "T1" then Except.error ⟨"boom", ["log1"]⟩ else Except.ok ()

/-- Ledger snapshot with one fetched transaction referencing the single
ordinary account B, every balance 5 SOL. -/
def envB : Transaction.LedgerEnv :=
  { transactions := [some ["B"]]
    accountInfo := fun _ => some ⟨false⟩
    balance := fun _ => 5
    maxTargets := 10 }

/-- Ledger snapshot with no fetched transactions, every balance 5 SOL. -/
def envEmpty : Transaction.LedgerEnv :=
  { transactions := []
    accountInfo := fun _ => none
    balance := fun _ => 5
    maxTargets := 5 }

/-- A pool keypair whose public key shares its first four characters with
the active address `"ABCD11"`. -/
def kpABCD : Generation.KeypairData := ⟨"ABCD22", "sk"⟩

/-- A pre-existing similarity record for the pair
`("ABCD11", "ABCD22")`, created from balance 1 and activity stamp t1. -/
def recABCD : Generation.SimilarAddress := Generation.matchRecord "ABCD11" 1 "t1" kpABCD

end Samples

namespace Generation

lemma hasPair_append (s t : List SimilarAddress) (a g : String) :
    hasPair (s ++ t) a g = (hasPair s a g || hasPair t a g) := by
  simp [hasPair, List.any_append]

lemma hasPair_singleton_matchRecord (A : String) (b : ℚ) (l : String) (kp : KeypairData) :
    hasPair [matchRecord A b l kp] A kp.publicKey = true := by
  simp only [hasPair, List.any_cons, List.any_nil]
  rw [show (matchRecord A b l kp).activeAddress = A from rfl,
    show (matchRecord A b l kp).generatedPublicKey = kp.publicKey from rfl]
  simp

lemma hasPair_eq_false_iff (s : List SimilarAddress) (a g : String) :
    hasPair s a g = false ↔
      ∀ r ∈ s, ¬(r.activeAddress = a ∧ r.generatedPublicKey = g) := by
  simp [hasPair, List.any_eq_false]

lemma findSimilar_nil (A : String) (b : ℚ) (l : String) (s : List SimilarAddress) :
    findSimilarKeysForActiveAddresses A b l [] s = s := rfl

lemma findSimilar_cons (A : String) (b : ℚ) (l : String) (kp : KeypairData)
    (pool : List KeypairData) (s : List SimilarAddress) :
    findSimilarKeysForActiveAddresses A b l (kp :: pool) s =
      findSimilarKeysForActiveAddresses A b l pool
        (if front4 A == front4 kp.publicKey then
          (if hasPair s A kp.publicKey then s
           else s ++ [matchRecord A b l kp])
         else s) := by
  simp only [findSimilarKeysForActiveAddresses, List.foldl_cons]

lemma findSimilar_eq_append (A : String) (b : ℚ) (l : String)
    (pool : List KeypairData) :
    ∀ s : List SimilarAddress,
      ∃ rest, findSimilarKeysForActiveAddresses A b l pool s = s ++ rest ∧
        ∀ r ∈ rest, hasPair s r.activeAddress r.generatedPublicKey = false ∧
          ∃ kp ∈ pool, r = matchRecord A b l kp ∧ front4 A = front4 kp.publicKey := by
  induction pool with
  | nil => intro s; exact ⟨[], by simp [findSimilar_nil]⟩
  | cons kp pool ih =>
    intro s
    rw [findSimilar_cons]
    by_cases hc : front4 A = front4 kp.publicKey
    · by_cases hp : hasPair s A kp.publicKey = true
      · obtain ⟨rest, heq, hprops⟩ := ih s
        refine ⟨rest, by simpa [hc, hp] using heq, ?_⟩
        intro r hr
        obtain ⟨h1, kp', hkp', h2⟩ := hprops r hr
        exact ⟨h1, kp', List.mem_cons_of_mem _ hkp', h2⟩
      · obtain ⟨rest, heq, hprops⟩ := ih (s ++ [matchRecord A b l kp])
        refine ⟨matchRecord A b l kp :: rest, ?_, ?_⟩
        · rw [if_pos (by simp [hc]), if_neg (by simp [hp]), heq,
            List.append_assoc, List.singleton_append]
        · intro r hr
          rcases List.mem_cons.1 hr with rfl | hr'
          · refine ⟨?_, kp, List.mem_cons_self kp pool, rfl, hc⟩
            simpa [matchRecord] using (Bool.eq_false_iff.2 hp)
          · obtain ⟨h1, kp', hkp', h2⟩ := hprops r hr'
            rw [hasPair_append, Bool.or_eq_false_iff] at h1
            exact ⟨h1.1, kp', List.mem_cons_of_mem _ hkp', h2⟩
    · obtain ⟨rest, heq, hprops⟩ := ih s
      refine ⟨rest, by simpa [hc] using heq, ?_⟩
      intro r hr
      obtain ⟨h1, kp', hkp', h2⟩ := hprops r hr
      exact ⟨h1, kp', List.mem_cons_of_mem _ hkp', h2⟩

lemma hasPair_mono (A : String) (b : ℚ) (l : String) (pool : List KeypairData)
    (s : List SimilarAddress) (a g : String) (h : hasPair s a g = true) :
    hasPair (findSimilarKeysForActiveAddresses A b l pool s) a g = true := by
  obtain ⟨rest, heq, -⟩ := findSimilar_eq_append A b l pool s
  rw [heq, hasPair_append, h, Bool.true_or]

lemma hasPair_complete (A : String) (b : ℚ) (l : String) (pool : List KeypairData) :
    ∀ (s : List SimilarAddress) (kp : KeypairData), kp ∈ pool →
      front4 A = front4 kp.publicKey →
      hasPair (findSimilarKeysForActiveAddresses A b l pool s) A kp.publicKey = true := by
  induction pool with
  | nil => intro s kp h; simp at h
  | cons kp0 pool ih =>
    intro s kp hmem hf
    rw [findSimilar_cons]
    rcases List.mem_cons.1 hmem with rfl | hmem'
    · by_cases hp : hasPair s A kp.publicKey = true
      · rw [if_pos (by simp [hf]), if_pos hp]
        exact hasPair_mono A b l pool s A kp.publicKey hp
      · rw [if_pos (by simp [hf]), if_neg hp]
        apply hasPair_mono
        rw [hasPair_append, hasPair_singleton_matchRecord, Bool.or_true]
    · exact ih _ kp hmem' hf

lemma findSimilar_no_op (A : String) (b : ℚ) (l : String) (pool : List KeypairData) :
    ∀ s : List SimilarAddress,
      (∀ kp ∈ pool, front4 A = front4 kp.publicKey → hasPair s A kp.publicKey = true) →
      findSimilarKeysForActiveAddresses A b l pool s = s := by
  induction pool with
  | nil => intro s _; rfl
  | cons kp pool ih =>
    intro s h
    rw [findSimilar_cons]
    by_cases hc : front4 A = front4 kp.publicKey
    · rw [if_pos (by simp [hc]), if_pos (h kp (List.mem_cons_self kp pool) hc)]
      exact ih s fun kp' hk hf => h kp' (List.mem_cons_of_mem _ hk) hf
    · rw [if_neg (by simp [hc])]
      exact ih s fun kp' hk hf => h kp' (List.mem_cons_of_mem _ hk) hf

lemma checkFor_nil (pool : List KeypairData) (s : List SimilarAddress) :
    checkForExistingSimilarities [] pool s = s := rfl

lemma checkFor_cons (e : String × ActiveInfo) (actives : List (String × ActiveInfo))
    (pool : List KeypairData) (s : List SimilarAddress) :
    checkForExistingSimilarities (e :: actives) pool s =
      checkForExistingSimilarities actives pool
        (findSimilarKeysForActiveAddresses e.1 e.2.balance e.2.lastActivity pool s) := by
  simp only [checkForExistingSimilarities, List.foldl_cons]

lemma hasPair_checkFor_mono (actives : List (String × ActiveInfo))
    (pool : List KeypairData) :
    ∀ (s : List SimilarAddress) (a g : String), hasPair s a g = true →
      hasPair (checkForExistingSimilarities actives pool s) a g = true := by
  induction actives with
  | nil => intro s a g h; exact h
  | cons e actives ih =>
    intro s a g h
    rw [checkFor_cons]
    exact ih _ a g (hasPair_mono _ _ _ pool s a g h)

lemma checkFor_saturates (actives : List (String × ActiveInfo))
    (pool : List KeypairData) :
    ∀ s : List SimilarAddress, ∀ e ∈ actives, ∀ kp ∈ pool,
      front4 e.1 = front4 kp.publicKey →
      hasPair (checkForExistingSimilarities actives pool s) e.1 kp.publicKey = true := by
  induction actives with
  | nil => intro s e he; simp at he
  | cons e0 actives ih =>
    intro s e he kp hkp hf
    rw [checkFor_cons]
    rcases List.mem_cons.1 he with rfl | he'
    · exact hasPair_checkFor_mono actives pool _ _ _
        (hasPair_complete e.1 e.2.balance e.2.lastActivity pool s kp hkp hf)
    · exact ih _ e he' kp hkp hf

lemma checkFor_no_op (actives : List (String × ActiveInfo))
    (pool : List KeypairData) :
    ∀ s : List SimilarAddress,
      (∀ e ∈ actives, ∀ kp ∈ pool, front4 e.1 = front4 kp.publicKey →
        hasPair s e.1 kp.publicKey = true) →
      checkForExistingSimilarities actives pool s = s := by
  induction actives with
  | nil => intro s _; rfl
  | cons e actives ih =>
    intro s h
    rw [checkFor_cons,
      findSimilar_no_op e.1 e.2.balance e.2.lastActivity pool s
        (fun kp hk hf => h e (List.mem_cons_self e actives) kp hk hf)]
    exact ih s fun e' he kp hk hf => h e' (List.mem_cons_of_mem _ he) kp hk hf

lemma uniquePairs_append_record (s : List SimilarAddress) (r : SimilarAddress)
    (h : uniquePairs s) (hnot : hasPair s r.activeAddress r.generatedPublicKey = false) :
    uniquePairs (s ++ [r]) := by
  rw [uniquePairs, List.pairwise_append]
  refine ⟨h, List.pairwise_singleton _ _, ?_⟩
  intro x hx y hy
  rw [List.mem_singleton] at hy
  subst hy
  exact (hasPair_eq_false_iff s _ _).1 hnot x hx

lemma uniquePairs_findSimilar (A : String) (b : ℚ) (l : String)
    (pool : List KeypairData) :
    ∀ s : List SimilarAddress, uniquePairs s →
      uniquePairs (findSimilarKeysForActiveAddresses A b l pool s) := by
  induction pool with
  | nil => intro s h; exact h
  | cons kp pool ih =>
    intro s h
    rw [findSimilar_cons]
    by_cases hc : front4 A = front4 kp.publicKey
    · by_cases hp : hasPair s A kp.publicKey = true
      · rw [if_pos (by simp [hc]), if_pos hp]; exact ih s h
      · rw [if_pos (by simp [hc]), if_neg hp]
        refine ih _ (uniquePairs_append_record s _ h ?_)
        rw [show (matchRecord A b l kp).activeAddress = A from rfl,
          show (matchRecord A b l kp).generatedPublicKey = kp.publicKey from rfl]
        exact Bool.eq_false_iff.2 hp
    · rw [if_neg (by simp [hc])]; exact ih s h

lemma uniquePairs_checkFor (actives : List (String × ActiveInfo))
    (pool : List KeypairData) :
    ∀ s : List SimilarAddress, uniquePairs s →
      uniquePairs (checkForExistingSimilarities actives pool s) := by
  induction actives with
  | nil => intro s h; exact h
  | cons e actives ih =>
    intro s h
    rw [checkFor_cons]
    exact ih _ (uniquePairs_findSimilar _ _ _ pool s h)

lemma front4_toList (s : String) :
    (front4 s).toList = s.toList.take MIN_FRONT_SIMILARITY := by
  show (front4 s).data = s.data.take MIN_FRONT_SIMILARITY
  simp [front4, String.data_take, List.take_take, MIN_FRONT_SIMILARITY]

lemma front4_eq_iff (s t : String) :
    front4 s = front4 t ↔
      s.toList.take MIN_FRONT_SIMILARITY = t.toList.take MIN_FRONT_SIMILARITY := by
  constructor
  · intro h
    rw [← front4_toList, ← front4_toList, h]
  · intro h
    apply String.ext
    show (front4 s).toList = (front4 t).toList
    rw [front4_toList, front4_toList, h]

end Generation

/-- C1: for every active address `A` and generated keypair `kp` in the pool,
the correlator produces a similarity-match record for the pair
`(A, kp.publicKey)` if and only if the first `MIN_FRONT_SIMILARITY` (4)
characters of the two public keys are identical; the computed
frontMatches/endMatches counts are recorded as metadata only and play no
role in acceptance. -/
theorem findSimilar_produces_match_iff_front4 (A : String) (b : ℚ) (l : String)
    (pool : List Generation.KeypairData) (s : List Generation.SimilarAddress)
    (kp : Generation.KeypairData) (hkp : kp ∈ pool)
    (hnew : Generation.hasPair s A kp.publicKey = false) :
    Generation.hasPair
        (Generation.findSimilarKeysForActiveAddresses A b l pool s) A kp.publicKey = true ↔
      A.toList.take Generation.MIN_FRONT_SIMILARITY =
        kp.publicKey.toList.take Generation.MIN_FRONT_SIMILARITY := by
  constructor
  · intro h
    obtain ⟨rest, heq, hprops⟩ := Generation.findSimilar_eq_append A b l pool s
    rw [heq, Generation.hasPair_append, hnew, Bool.false_or] at h
    obtain ⟨r, hr, hra⟩ := List.any_eq_true.1 h
    rw [Bool.and_eq_true, beq_iff_eq, beq_iff_eq] at hra
    obtain ⟨-, kp', -, hrEq, hf⟩ := hprops r hr
    have hg : kp'.publicKey = kp.publicKey := by
      rw [hrEq] at hra
      exact hra.2
    rw [← hg]
    exact (Generation.front4_eq_iff A kp'.publicKey).1 hf
  · intro h
    exact Generation.hasPair_complete A b l pool s kp hkp
      ((Generation.front4_eq_iff A kp.publicKey).2 h)

theorem findSimilar_produces_match_iff_front4_witness :
    Generation.hasPair
        (Generation.findSimilarKeysForActiveAddresses "ABCDEF" 2 "t1"
          [⟨"ABCDXY", "sk1"⟩] []) "ABCDEF" "ABCDXY" = true ↔
      ("ABCDEF" : String).toList.take Generation.MIN_FRONT_SIMILARITY =
        ("ABCDXY" : String).toList.take Generation.MIN_FRONT_SIMILARITY :=
  findSimilar_produces_match_iff_front4 "ABCDEF" 2 "t1" [⟨"ABCDXY", "sk1"⟩] []
    ⟨"ABCDXY", "sk1"⟩ (List.mem_singleton.2 rfl) rfl

/-- C7: similarity correlation is idempotent: re-running
`findSimilarKeysForActiveAddresses`, or the full re-scan
`checkForExistingSimilarities`, over an unchanged active-address set and
keypair pool adds no new records, and either run preserves the invariant
that the match set holds at most one record per
`(activeAddress, generatedPublicKey)` pair. -/
theorem correlation_idempotent (A : String) (b : ℚ) (l : String)
    (actives : List (String × Generation.ActiveInfo))
    (pool : List Generation.KeypairData) (s : List Generation.SimilarAddress) :
    Generation.findSimilarKeysForActiveAddresses A b l pool
        (Generation.findSimilarKeysForActiveAddresses A b l pool s) =
      Generation.findSimilarKeysForActiveAddresses A b l pool s ∧
    Generation.checkForExistingSimilarities actives pool
        (Generation.checkForExistingSimilarities actives pool s) =
      Generation.checkForExistingSimilarities actives pool s ∧
    (Generation.uniquePairs s →
      Generation.uniquePairs (Generation.findSimilarKeysForActiveAddresses A b l pool s)) ∧
    (Generation.uniquePairs s →
      Generation.uniquePairs (Generation.checkForExistingSimilarities actives pool s)) := by
  refine ⟨?_, ?_, ?_, ?_⟩
  · exact Generation.findSimilar_no_op A b l pool _
      (fun kp hk hf => Generation.hasPair_complete A b l pool s kp hk hf)
  · exact Generation.checkFor_no_op actives pool _
      (fun e he kp hk hf => Generation.checkFor_saturates actives pool s e he kp hk hf)
  · exact Generation.uniquePairs_findSimilar A b l pool s
  · exact Generation.uniquePairs_checkFor actives pool s

theorem correlation_idempotent_witness :
    (Generation.findSimilarKeysForActiveAddresses "ABCD11" 1 "t1" [Samples.kpABCD]
        (Generation.findSimilarKeysForActiveAddresses "ABCD11" 1 "t1" [Samples.kpABCD] []) =
      Generation.findSimilarKeysForActiveAddresses "ABCD11" 1 "t1" [Samples.kpABCD] []) ∧
    (Generation.checkForExistingSimilarities [("ABCD11", ⟨1, "t1"⟩)] [Samples.kpABCD]
        (Generation.checkForExistingSimilarities [("ABCD11", ⟨1, "t1"⟩)]
          [Samples.kpABCD] []) =
      Generation.checkForExistingSimilarities [("ABCD11", ⟨1, "t1"⟩)]
        [Samples.kpABCD] []) ∧
    Generation.uniquePairs
      (Generation.findSimilarKeysForActiveAddresses "ABCD11" 1 "t1" [Samples.kpABCD] []) ∧
    Generation.uniquePairs
      (Generation.checkForExistingSimilarities [("ABCD11", ⟨1, "t1"⟩)]
        [Samples.kpABCD] []) := by
  obtain ⟨h1, h2, h3, h4⟩ :=
    correlation_idempotent "ABCD11" 1 "t1" [("ABCD11", ⟨1, "t1"⟩)] [Samples.kpABCD] []
  exact ⟨h1, h2, h3 List.Pairwise.nil, h4 List.Pairwise.nil⟩

/-- C8 counterexample: the pair `("ABCD11", "ABCD22")` already has a record
with activeBalance 1 and lastActivity t1; re-running correlation with
current values balance 2 and activity t2 leaves the match set entirely
unchanged, so activeBalance and lastActivity are NOT refreshed to the
values supplied by the re-scan. -/
theorem findSimilar_refresh_counterexample :
    Generation.findSimilarKeysForActiveAddresses "ABCD11" 2 "t2" [Samples.kpABCD]
        [Samples.recABCD] = [Samples.recABCD] ∧
    Samples.recABCD.activeBalance = 1 ∧ Samples.recABCD.lastActivity = "t1" ∧
    ((1 : ℚ) ≠ 2 ∧ "t1" ≠ "t2") := by
  refine ⟨by decide, by decide, by decide, by decide, by decide⟩

/-- C8 (amended): when correlation re-runs for a pair
`(activeAddress, generatedPublicKey)` that already has a record, no field of
any record is refreshed: every pre-existing record is left entirely
unchanged (the prior records are a prefix of the resulting set), and no
additional record for that pair is appended, so the records matching the
pair are exactly the ones that were already there. -/
theorem findSimilar_no_refresh (A : String) (b : ℚ) (l : String)
    (pool : List Generation.KeypairData) (s : List Generation.SimilarAddress)
    (a g : String) (hpair : Generation.hasPair s a g = true) :
    (Generation.findSimilarKeysForActiveAddresses A b l pool s).take s.length = s ∧
    (Generation.findSimilarKeysForActiveAddresses A b l pool s).filter
        (fun r => r.activeAddress == a && r.generatedPublicKey == g) =
      s.filter (fun r => r.activeAddress == a && r.generatedPublicKey == g) := by
  obtain ⟨rest, heq, hprops⟩ := Generation.findSimilar_eq_append A b l pool s
  rw [heq]
  constructor
  · exact List.take_left s rest
  · rw [List.filter_append]
    have hnil : rest.filter
        (fun r => r.activeAddress == a && r.generatedPublicKey == g) = [] := by
      rw [List.filter_eq_nil_iff]
      intro r hr hcontra
      rw [Bool.and_eq_true, beq_iff_eq, beq_iff_eq] at hcontra
      obtain ⟨hfalse, -⟩ := hprops r hr
      rw [hcontra.1, hcontra.2] at hfalse
      rw [hpair] at hfalse
      simp at hfalse
    rw [hnil, List.append_nil]

theorem findSimilar_no_refresh_witness :
    (Generation.findSimilarKeysForActiveAddresses "ABCD11" 2 "t2" [Samples.kpABCD]
        [Samples.recABCD]).take 1 = [Samples.recABCD] ∧
    (Generation.findSimilarKeysForActiveAddresses "ABCD11" 2 "t2" [Samples.kpABCD]
        [Samples.recABCD]).filter
        (fun r => r.activeAddress == "ABCD11" && r.generatedPublicKey == "ABCD22") =
      ([Samples.recABCD]).filter
        (fun r => r.activeAddress == "ABCD11" && r.generatedPublicKey == "ABCD22") :=
  findSimilar_no_refresh "ABCD11" 2 "t2" [Samples.kpABCD] [Samples.recABCD]
    "ABCD11" "ABCD22" (by decide)

namespace Transaction

lemma mem_insertUnique {addressSet : List String} {a x : String}
    (hx : x ∈ insertUnique addressSet a) : x ∈ addressSet ∨ x = a := by
  unfold insertUnique at hx
  split at hx
  · exact Or.inl hx
  · rcases List.mem_append.1 hx with h | h
    · exact Or.inl h
    · exact Or.inr (List.mem_singleton.1 h)

lemma mem_considerAccountKey {env : LedgerEnv} {activeWallet : String}
    {addressSet : List String} {accountKey x : String}
    (hx : x ∈ considerAccountKey env activeWallet addressSet accountKey) :
    x ∈ addressSet ∨
      (x ∉ EXCLUDED_ADDRESSES ∧ x ≠ defaultPublicKey ∧ x ≠ activeWallet) := by
  unfold considerAccountKey at hx
  rcases henv : env.accountInfo accountKey with _ | info
  · rw [henv] at hx; exact Or.inl hx
  · simp only [henv] at hx
    by_cases hexe : info.executable = true
    · rw [if_pos hexe] at hx; exact Or.inl hx
    · rw [if_neg hexe] at hx
      by_cases hexc : accountKey ∈ EXCLUDED_ADDRESSES
      · rw [if_pos hexc] at hx; exact Or.inl hx
      · rw [if_neg hexc] at hx
        by_cases hdef : (accountKey == defaultPublicKey || accountKey == activeWallet) = true
        · rw [if_pos hdef] at hx; exact Or.inl hx
        · rw [if_neg hdef] at hx
          rcases mem_insertUnique hx with h | h
          · exact Or.inl h
          · subst h
            rw [Bool.not_eq_true, Bool.or_eq_false_iff,
              beq_eq_false_iff_ne, beq_eq_false_iff_ne] at hdef
            exact Or.inr ⟨hexc, hdef.1, hdef.2⟩

lemma mem_keysFold {env : LedgerEnv} {activeWallet : String} :
    ∀ (accountKeys : List String) (addressSet : List String) (x : String),
      x ∈ accountKeys.foldl (considerAccountKey env activeWallet) addressSet →
      x ∈ addressSet ∨
        (x ∉ EXCLUDED_ADDRESSES ∧ x ≠ defaultPublicKey ∧ x ≠ activeWallet) := by
  intro accountKeys
  induction accountKeys with
  | nil => intro addressSet x hx; exact Or.inl hx
  | cons k keys ih =>
    intro addressSet x hx
    rw [List.foldl_cons] at hx
    rcases ih _ x hx with h | h
    · exact mem_considerAccountKey h
    · exact Or.inr h

lemma mem_considerTransaction {env : LedgerEnv} {activeWallet : String}
    {addressSet : List String} {otx : Option (List String)} {x : String}
    (hx : x ∈ considerTransaction env activeWallet addressSet otx) :
    x ∈ addressSet ∨
      (x ∉ EXCLUDED_ADDRESSES ∧ x ≠ defaultPublicKey ∧ x ≠ activeWallet) := by
  unfold considerTransaction at hx
  rcases otx with _ | accountKeys
  · exact Or.inl hx
  · exact mem_keysFold accountKeys addressSet x hx

lemma collectAddressSet_spec (env : LedgerEnv) (activeWallet : String) :
    ∀ x ∈ collectAddressSet env activeWallet,
      x ∉ EXCLUDED_ADDRESSES ∧ x ≠ defaultPublicKey ∧ x ≠ activeWallet := by
  have main : ∀ (txs : List (Option (List String))) (addressSet : List String) (x : String),
      x ∈ txs.foldl (considerTransaction env activeWallet) addressSet →
      x ∈ addressSet ∨
        (x ∉ EXCLUDED_ADDRESSES ∧ x ≠ defaultPublicKey ∧ x ≠ activeWallet) := by
    intro txs
    induction txs with
    | nil => intro addressSet x hx; exact Or.inl hx
    | cons otx txs ih =>
      intro addressSet x hx
      rw [List.foldl_cons] at hx
      rcases ih _ x hx with h | h
      · exact mem_considerTransaction h
      · exact Or.inr h
  intro x hx
  rcases main env.transactions [] x hx with h | h
  · simp at h
  · exact h

lemma mem_balanceFold (minSolTarget : ℚ) :
    ∀ (balanceResults : List (String × ℚ)) (init : List Target) (t : Target),
      t ∈ balanceResults.foldl
        (fun ts br => if minSolTarget ≤ br.2 then ts ++ [⟨br.1, br.2⟩] else ts) init →
      t ∈ init ∨ t.publicKey ∈ balanceResults.map Prod.fst := by
  intro balanceResults
  induction balanceResults with
  | nil => intro init t h; exact Or.inl h
  | cons br brs ih =>
    intro init t h
    rw [List.foldl_cons] at h
    rcases ih _ t h with h' | h'
    · by_cases hc : minSolTarget ≤ br.2
      · rw [if_pos hc] at h'
        rcases List.mem_append.1 h' with h2 | h2
        · exact Or.inl h2
        · right
          rw [List.mem_singleton] at h2
          subst h2
          exact List.mem_cons_self _ _
      · rw [if_neg hc] at h'; exact Or.inl h'
    · exact Or.inr (List.mem_cons_of_mem _ h')

lemma mem_filterByMinBalance {minSolTarget : ℚ} {balanceResults : List (String × ℚ)}
    {t : Target} (ht : t ∈ filterByMinBalance minSolTarget balanceResults) :
    t.publicKey ∈ balanceResults.map Prod.fst := by
  rcases mem_balanceFold minSolTarget balanceResults [] t ht with h | h
  · simp at h
  · exact h

lemma getTargetsFull_eq (env : LedgerEnv) (activeWallet : String) (minSolTarget : ℚ) :
    getTargetsFull env activeWallet minSolTarget =
      (if minSolTarget ≤ env.balance activeWallet then
        filterByMinBalance minSolTarget ((collectAddressSet env activeWallet).map
          (fun address => (address, env.balance address))) ++
          [⟨activeWallet, env.balance activeWallet⟩]
       else filterByMinBalance minSolTarget ((collectAddressSet env activeWallet).map
          (fun address => (address, env.balance address)))) := rfl

lemma mem_candidates_ne_active {env : LedgerEnv} {activeWallet : String}
    {minSolTarget : ℚ} {t : Target}
    (ht : t ∈ filterByMinBalance minSolTarget ((collectAddressSet env activeWallet).map
      (fun address => (address, env.balance address)))) :
    t.publicKey ∈ collectAddressSet env activeWallet ∧ t.publicKey ≠ activeWallet := by
  have h := mem_filterByMinBalance ht
  rw [List.map_map] at h
  have hmem : t.publicKey ∈ collectAddressSet env activeWallet := by simpa using h
  exact ⟨hmem, (collectAddressSet_spec env activeWallet t.publicKey hmem).2.2⟩

lemma mem_getTargetsFull {env : LedgerEnv} {activeWallet : String}
    {minSolTarget : ℚ} {t : Target}
    (ht : t ∈ getTargetsFull env activeWallet minSolTarget) :
    t.publicKey ∈ collectAddressSet env activeWallet ∨ t.publicKey = activeWallet := by
  rw [getTargetsFull_eq] at ht
  by_cases hc : minSolTarget ≤ env.balance activeWallet
  · rw [if_pos hc] at ht
    rcases List.mem_append.1 ht with h | h
    · exact Or.inl (mem_candidates_ne_active h).1
    · rw [List.mem_singleton] at h
      subst h
      exact Or.inr rfl
  · rw [if_neg hc] at ht
    exact Or.inl (mem_candidates_ne_active ht).1

lemma getTargetsFull_filter_active (env : LedgerEnv) (activeWallet : String)
    (minSolTarget : ℚ) :
    (getTargetsFull env activeWallet minSolTarget).filter
        (fun t => t.publicKey == activeWallet) =
      (if minSolTarget ≤ env.balance activeWallet then
        [⟨activeWallet, env.balance activeWallet⟩] else []) := by
  have hcand : (filterByMinBalance minSolTarget ((collectAddressSet env activeWallet).map
      (fun address => (address, env.balance address)))).filter
        (fun t => t.publicKey == activeWallet) = [] := by
    rw [List.filter_eq_nil_iff]
    intro t ht hcontra
    rw [beq_iff_eq] at hcontra
    exact (mem_candidates_ne_active ht).2 hcontra
  rw [getTargetsFull_eq]
  by_cases hc : minSolTarget ≤ env.balance activeWallet
  · rw [if_pos hc, if_pos hc, List.filter_append, hcand, List.nil_append]
    simp
  · rw [if_neg hc, if_neg hc]
    exact hcand

end Transaction

namespace Transaction

lemma getTargets_spec (env : LedgerEnv) (activeWallet : String) (minSolTarget : ℚ)
    (h1 : activeWallet ∉ EXCLUDED_ADDRESSES) (h2 : activeWallet ≠ defaultPublicKey) :
    (getTargets env activeWallet minSolTarget).length ≤ env.maxTargets ∧
    ∀ t ∈ getTargets env activeWallet minSolTarget,
      t.publicKey ∉ EXCLUDED_ADDRESSES ∧ t.publicKey ≠ defaultPublicKey := by
  constructor
  · rw [getTargets, List.length_take]
    exact min_le_left _ _
  · intro t ht
    have ht' : t ∈ getTargetsFull env activeWallet minSolTarget :=
      List.mem_of_mem_take ht
    rcases mem_getTargetsFull ht' with h | h
    · have hspec := collectAddressSet_spec env activeWallet t.publicKey h
      exact ⟨hspec.1, hspec.2.1⟩
    · rw [h]
      exact ⟨h1, h2⟩

lemma getTargetsWithTimeout_eq (env : LedgerEnv) (activeWallet : String)
    (minSolTarget : ℚ) (lowerMinSol : Bool) :
    getTargetsWithTimeout env activeWallet minSolTarget lowerMinSol =
      (if (getTargets env activeWallet minSolTarget).length < env.maxTargets
          && lowerMinSol then
        getTargets env activeWallet 0
       else getTargets env activeWallet minSolTarget) := rfl

end Transaction

/-- C5 (amended): provided the active address is not itself on the static
exclusion list and is not the zero/default address, target resolution
(`getTargets`, and `getTargetsWithTimeout` including its relaxed pass)
returns at most `maxTargets` entries and never returns an entry that is on
the exclusion list or equal to the zero/default address.  The proviso is
necessary: the active address is appended to the list without these checks
whenever its balance qualifies. -/
theorem getTargets_bounded_and_excludes (env : Transaction.LedgerEnv)
    (activeWallet : String) (minSolTarget : ℚ) (lowerMinSol : Bool)
    (h1 : activeWallet ∉ Transaction.EXCLUDED_ADDRESSES)
    (h2 : activeWallet ≠ Transaction.defaultPublicKey) :
    ((Transaction.getTargets env activeWallet minSolTarget).length ≤ env.maxTargets ∧
      ∀ t ∈ Transaction.getTargets env activeWallet minSolTarget,
        t.publicKey ∉ Transaction.EXCLUDED_ADDRESSES ∧
          t.publicKey ≠ Transaction.defaultPublicKey) ∧
    ((Transaction.getTargetsWithTimeout env activeWallet minSolTarget
        lowerMinSol).length ≤ env.maxTargets ∧
      ∀ t ∈ Transaction.getTargetsWithTimeout env activeWallet minSolTarget lowerMinSol,
        t.publicKey ∉ Transaction.EXCLUDED_ADDRESSES ∧
          t.publicKey ≠ Transaction.defaultPublicKey) := by
  refine ⟨Transaction.getTargets_spec env activeWallet minSolTarget h1 h2, ?_⟩
  rw [Transaction.getTargetsWithTimeout_eq]
  split
  · exact Transaction.getTargets_spec env activeWallet 0 h1 h2
  · exact Transaction.getTargets_spec env activeWallet minSolTarget h1 h2

theorem getTargets_bounded_and_excludes_witness :
    ("A" ∉ Transaction.EXCLUDED_ADDRESSES) ∧
    ("A" ≠ Transaction.defaultPublicKey) ∧
    (Transaction.getTargets Samples.envEmpty "A" 1).length ≤
      Samples.envEmpty.maxTargets ∧
    (Transaction.getTargetsWithTimeout Samples.envEmpty "A" 1 false).length ≤
      Samples.envEmpty.maxTargets ∧
    ((⟨"A", 5⟩ : Transaction.Target).publicKey ∉ Transaction.EXCLUDED_ADDRESSES ∧
      (⟨"A", 5⟩ : Transaction.Target).publicKey ≠ Transaction.defaultPublicKey) := by
  have h := getTargets_bounded_and_excludes Samples.envEmpty "A" 1 false
    (by decide) (by decide)
  exact ⟨by decide, by decide, h.1.1, h.2.1, h.1.2 ⟨"A", 5⟩ (by decide)⟩

/-- C5 counterexample: when the active address is itself the excluded
zero/default address `11111111111111111111111111111111` with a qualifying
balance, `getTargets` returns a list containing that address, although it
is both on the exclusion list and the zero/default address. -/
theorem getTargets_excluded_active_counterexample :
    Transaction.getTargets Samples.envEmpty "11111111111111111111111111111111" 1 =
      [⟨"11111111111111111111111111111111", 5⟩] ∧
    "11111111111111111111111111111111" ∈ Transaction.EXCLUDED_ADDRESSES ∧
    "11111111111111111111111111111111" = Transaction.defaultPublicKey :=
  ⟨by decide, by decide, rfl⟩

/-- C9 (amended): after filtering history-derived candidates by the minimum
target balance, `getTargets` re-tests the current balance of the active
address and appends the active address whenever that balance meets the
minimum, regardless of whether any other candidate qualified (the
"it alone qualifies" condition of the claim is not checked); the
history-derived candidates never include the active address itself, and the
returned list is this pre-truncation list cut to `maxTargets`. -/
theorem getTargets_active_self_inclusion (env : Transaction.LedgerEnv)
    (activeWallet : String) (minSolTarget : ℚ) :
    (Transaction.getTargetsFull env activeWallet minSolTarget).filter
        (fun t => t.publicKey == activeWallet) =
      (if minSolTarget ≤ env.balance activeWallet then
        [⟨activeWallet, env.balance activeWallet⟩] else []) ∧
    Transaction.getTargets env activeWallet minSolTarget =
      (Transaction.getTargetsFull env activeWallet minSolTarget).take env.maxTargets :=
  ⟨Transaction.getTargetsFull_filter_active env activeWallet minSolTarget, rfl⟩

/-- C9 counterexample: with one history-derived candidate B whose balance 5
meets the minimum 1, the active address A (balance 5) is nevertheless
included as a target, so the active address is included even though it does
not alone qualify. -/
theorem getTargets_active_counterexample :
    Transaction.getTargets Samples.envB "A" 1 = [⟨"B", 5⟩, ⟨"A", 5⟩] ∧
    (1 : ℚ) ≤ 5 ∧ "B" ≠ "A" :=
  ⟨by decide, by norm_num, by decide⟩

/-- C3: for every non-empty target list, if the dispatch-wallet balance is
below the fixed rent-exemption floor 0.00203928 SOL, then
`sendTransactionsInParallel` attempts no transfers and produces zero
DispatchOutcome records, returning the empty list (the critical failure is
reported through the log side channel). -/
theorem dispatch_refused_below_rent_floor
    (transfer : String → Except Transaction.TransferFault Unit)
    (generatedBalance : Option ℚ) (targets : List Transaction.Target)
    (hne : targets ≠ [])
    (hlow : Transaction.jsBalance generatedBalance < Transaction.minBalanceForRent) :
    Transaction.sendTransactionsInParallel transfer generatedBalance targets = [] := by
  unfold Transaction.sendTransactionsInParallel
  rw [if_pos hlow]

theorem dispatch_refused_below_rent_floor_witness :
    ([(⟨"T1", 1⟩ : Transaction.Target)] ≠ []) ∧
    Transaction.jsBalance (some (1 / 1000)) < Transaction.minBalanceForRent ∧
    Transaction.sendTransactionsInParallel Samples.transferFailT1 (some (1 / 1000))
      [⟨"T1", 1⟩] = [] :=
  ⟨by decide, by norm_num [Transaction.jsBalance, Transaction.minBalanceForRent],
    dispatch_refused_below_rent_floor Samples.transferFailT1 (some (1 / 1000))
      [⟨"T1", 1⟩] (by decide)
      (by norm_num [Transaction.jsBalance, Transaction.minBalanceForRent])⟩

/-- C6: when the rent-floor check passes, every target of the list handed to
`sendTransactionsInParallel` gets exactly one DispatchOutcome, in order: the
outcome at index i belongs to the target at index i and depends only on that
target's own transfer result, carrying the underlying error detail on
failure — so one target's failure never prevents another target's transfer
from being attempted or recorded. -/
theorem dispatch_isolates_target_failures
    (transfer : String → Except Transaction.TransferFault Unit)
    (generatedBalance : Option ℚ) (targets : List Transaction.Target)
    (hbal : ¬ Transaction.jsBalance generatedBalance < Transaction.minBalanceForRent) :
    (Transaction.sendTransactionsInParallel transfer generatedBalance targets).length =
      targets.length ∧
    ∀ (i : ℕ) (t : Transaction.Target), targets[i]? = some t →
      (Transaction.sendTransactionsInParallel transfer generatedBalance targets)[i]? =
        some (match transfer t.publicKey with
          | Except.ok _ => ⟨true, t.publicKey, none, []⟩
          | Except.error e => ⟨false, t.publicKey, some e.message, e.logs⟩) := by
  unfold Transaction.sendTransactionsInParallel
  rw [if_neg hbal]
  constructor
  · exact List.length_map _ _
  · intro i t ht
    rw [List.getElem?_map, ht]
    rfl

theorem dispatch_isolates_target_failures_witness :
    (¬ Transaction.jsBalance (some 1) < Transaction.minBalanceForRent) ∧
    (Transaction.sendTransactionsInParallel Samples.transferFailT1 (some 1)
        [⟨"T1", 1⟩, ⟨"T2", 2⟩]).length = 2 ∧
    (Transaction.sendTransactionsInParallel Samples.transferFailT1 (some 1)
        [⟨"T1", 1⟩, ⟨"T2", 2⟩])[0]? =
      some ⟨false, "T1", some "boom", ["log1"]⟩ ∧
    (Transaction.sendTransactionsInParallel Samples.transferFailT1 (some 1)
        [⟨"T1", 1⟩, ⟨"T2", 2⟩])[1]? =
      some ⟨true, "T2", none, []⟩ := by
  have h := dispatch_isolates_target_failures Samples.transferFailT1 (some 1)
    [⟨"T1", 1⟩, ⟨"T2", 2⟩]
    (by norm_num [Transaction.jsBalance, Transaction.minBalanceForRent])
  exact ⟨by norm_num [Transaction.jsBalance, Transaction.minBalanceForRent],
    h.1, h.2 0 ⟨"T1", 1⟩ rfl, h.2 1 ⟨"T2", 2⟩ rfl⟩

/-- C10: for every non-empty target list, when the per-target results list
handed to `logTransactionDetails` is empty (as happens when
`sendTransactionsInParallel` refuses the dispatch at the rent-floor check
and returns no outcomes), the recorded TransactionLogEntry has
transactionStatus Success while every target in it is marked
sentSuccessful = false. -/
theorem logEntry_empty_results_success
    (timestamp generatedPublicKey generatedSecretKey : String)
    (generatedBalance activeBalance mainWalletBalance : ℚ)
    (activeWallet : String) (targets : List Transaction.Target)
    (hne : targets ≠ []) :
    (Transaction.logTransactionDetails timestamp generatedPublicKey generatedSecretKey
        generatedBalance activeBalance mainWalletBalance activeWallet targets
        []).transactionStatus = "Success" ∧
    ∀ lt ∈ (Transaction.logTransactionDetails timestamp generatedPublicKey
        generatedSecretKey generatedBalance activeBalance mainWalletBalance
        activeWallet targets []).targets, lt.sentSuccessful = false := by
  constructor
  · rfl
  · intro lt hlt
    simp only [Transaction.logTransactionDetails, List.mem_map] at hlt
    obtain ⟨t, ht, rfl⟩ := hlt
    rfl

theorem logEntry_empty_results_success_witness :
    ([(⟨"T", 1⟩ : Transaction.Target)] ≠ []) ∧
    (Transaction.logTransactionDetails "ts" "G" "sk" 1 1 1 "A" [⟨"T", 1⟩]
        []).transactionStatus = "Success" ∧
    (⟨"T", 1, false⟩ : Transaction.LoggedTarget).sentSuccessful = false := by
  have h := logEntry_empty_results_success "ts" "G" "sk" 1 1 1 "A" [⟨"T", 1⟩]
    (by decide)
  exact ⟨by decide, h.1, h.2 ⟨"T", 1, false⟩ (by decide)⟩

/-- C2 (amended): the recorded transactionStatus is the string Success iff
every entry of the per-target results list reports success — in particular
it is (vacuously) Success when the results list is empty, even when targets
exist and none of them succeeded — and otherwise it is the string
Partial Failure; no third full-failure status exists, so the entry is never
marked as a full failure when at least one target succeeded. -/
theorem logEntry_status_iff (timestamp generatedPublicKey generatedSecretKey : String)
    (generatedBalance activeBalance mainWalletBalance : ℚ)
    (activeWallet : String) (targets : List Transaction.Target)
    (transactionResults : List Transaction.DispatchOutcome) :
    ((Transaction.logTransactionDetails timestamp generatedPublicKey generatedSecretKey
        generatedBalance activeBalance mainWalletBalance activeWallet targets
        transactionResults).transactionStatus = "Success" ↔
      ∀ r ∈ transactionResults, r.success = true) ∧
    ((Transaction.logTransactionDetails timestamp generatedPublicKey generatedSecretKey
        generatedBalance activeBalance mainWalletBalance activeWallet targets
        transactionResults).transactionStatus = "Success" ∨
      (Transaction.logTransactionDetails timestamp generatedPublicKey generatedSecretKey
        generatedBalance activeBalance mainWalletBalance activeWallet targets
        transactionResults).transactionStatus = "Partial Failure") := by
  have hstat : (Transaction.logTransactionDetails timestamp generatedPublicKey
      generatedSecretKey generatedBalance activeBalance mainWalletBalance activeWallet
      targets transactionResults).transactionStatus =
      (if transactionResults.all (fun result => result.success) then "Success"
       else "Partial Failure") := rfl
  rw [hstat]
  by_cases h : transactionResults.all (fun result => result.success) = true
  · rw [if_pos h]
    exact ⟨⟨fun _ => fun r hr => List.all_eq_true.1 h r hr, fun _ => rfl⟩, Or.inl rfl⟩
  · rw [if_neg h]
    refine ⟨⟨fun hfalse => absurd hfalse (by decide), ?_⟩, Or.inr rfl⟩
    intro hall
    exact absurd (List.all_eq_true.2 hall) h

/-- C2 counterexample: with the non-empty target list [T] and an empty
per-target results list (exactly what the rent-floor refusal produces), the
recorded entry has transactionStatus Success although no target has a
successful transfer outcome — its only logged target carries
sentSuccessful = false — contradicting Success iff every target succeeded. -/
theorem logEntry_status_counterexample :
    (Transaction.logTransactionDetails "ts" "G" "sk" 1 1 1 "A" [⟨"T", 1⟩]
        []).transactionStatus = "Success" ∧
    (Transaction.logTransactionDetails "ts" "G" "sk" 1 1 1 "A" [⟨"T", 1⟩]
        []).targets = [⟨"T", 1, false⟩] ∧
    ([(⟨"T", 1⟩ : Transaction.Target)] ≠ []) :=
  ⟨by decide, by decide, by decide⟩

namespace Generation

lemma grantedCount_nil (m p : ℚ) (s : RLState) : grantedCount m p s [] = 0 := rfl

lemma grantedCount_cons (m p : ℚ) (s : RLState) (t : ℚ) (ts : List ℚ) :
    grantedCount m p s (t :: ts) =
      (if (waitForTokenAttempt m p s t).2 then 1 else 0) +
        grantedCount m p (waitForTokenAttempt m p s t).1 ts := rfl

lemma runAttempts_nil (m p : ℚ) (s : RLState) : runAttempts m p s [] = s := rfl

lemma runAttempts_cons (m p : ℚ) (s : RLState) (t : ℚ) (ts : List ℚ) :
    runAttempts m p s (t :: ts) =
      runAttempts m p (waitForTokenAttempt m p s t).1 ts := rfl

lemma grantedCount_cons_pos (m p : ℚ) (s : RLState) (t : ℚ) (ts : List ℚ)
    (hpos : 0 < (refillTokens m p s t).tokens) :
    grantedCount m p s (t :: ts) =
      1 + grantedCount m p ⟨(refillTokens m p s t).tokens - 1, t⟩ ts := by
  rw [grantedCount_cons, waitForTokenAttempt, if_pos hpos]
  rfl

lemma grantedCount_cons_neg (m p : ℚ) (s : RLState) (t : ℚ) (ts : List ℚ)
    (hpos : ¬ 0 < (refillTokens m p s t).tokens) :
    grantedCount m p s (t :: ts) = grantedCount m p (refillTokens m p s t) ts := by
  rw [grantedCount_cons, waitForTokenAttempt, if_neg hpos]
  simp

lemma runAttempts_cons_pos (m p : ℚ) (s : RLState) (t : ℚ) (ts : List ℚ)
    (hpos : 0 < (refillTokens m p s t).tokens) :
    runAttempts m p s (t :: ts) =
      runAttempts m p ⟨(refillTokens m p s t).tokens - 1, t⟩ ts := by
  rw [runAttempts_cons, waitForTokenAttempt, if_pos hpos]

lemma runAttempts_cons_neg (m p : ℚ) (s : RLState) (t : ℚ) (ts : List ℚ)
    (hpos : ¬ 0 < (refillTokens m p s t).tokens) :
    runAttempts m p s (t :: ts) = runAttempts m p (refillTokens m p s t) ts := by
  rw [runAttempts_cons, waitForTokenAttempt, if_neg hpos]

lemma refillTokens_le_cap (m p : ℚ) (s : RLState) (t : ℚ) :
    (refillTokens m p s t).tokens ≤ m := min_le_left _ _

lemma refillTokens_le_linear (m p : ℚ) (s : RLState) (t : ℚ) :
    (refillTokens m p s t).tokens ≤ s.tokens + (t - s.lastRefilled) * (m / p) :=
  min_le_right _ _

lemma refillTokens_gt_neg_one (m p : ℚ) (hm : 0 ≤ m) (hp : 0 < p) (s : RLState)
    (t : ℚ) (hst : s.lastRefilled ≤ t) (htok : -1 < s.tokens) :
    -1 < (refillTokens m p s t).tokens := by
  apply lt_min
  · linarith
  · have : 0 ≤ (t - s.lastRefilled) * (m / p) :=
      mul_nonneg (by linarith) (div_nonneg hm hp.le)
    linarith

/-- Accounting bound: from a state with at most `m` tokens, the grants along
a time-ordered attempt list are fewer than the starting tokens plus the
uncapped refill over the elapsed span, plus one. -/
lemma grantedCount_lt (m p : ℚ) (hm : 0 ≤ m) (hp : 0 < p) :
    ∀ (ts : List ℚ) (s : RLState) (tend : ℚ),
      s.tokens ≤ m → -1 < s.tokens →
      List.Chain (· ≤ ·) s.lastRefilled ts →
      (∀ t ∈ ts, t ≤ tend) → s.lastRefilled ≤ tend →
      (grantedCount m p s ts : ℚ) <
        s.tokens + (tend - s.lastRefilled) * (m / p) + 1 := by
  intro ts
  induction ts with
  | nil =>
    intro s tend _ htok _ _ hle
    have : 0 ≤ (tend - s.lastRefilled) * (m / p) :=
      mul_nonneg (by linarith) (div_nonneg hm hp.le)
    rw [grantedCount_nil]
    push_cast
    linarith
  | cons t ts ih =>
    intro s tend hcap htok hchain hmem hle
    rw [List.chain_cons] at hchain
    obtain ⟨hst, hchain2⟩ := hchain
    have htend : t ≤ tend := hmem t (List.mem_cons_self t ts)
    have h1 := refillTokens_le_linear m p s t
    have h2 := refillTokens_le_cap m p s t
    have h3 := refillTokens_gt_neg_one m p hm hp s t hst htok
    have hsum : (t - s.lastRefilled) * (m / p) + (tend - t) * (m / p) =
        (tend - s.lastRefilled) * (m / p) := by ring
    by_cases hpos : 0 < (refillTokens m p s t).tokens
    · rw [grantedCount_cons_pos m p s t ts hpos]
      have hih := ih ⟨(refillTokens m p s t).tokens - 1, t⟩ tend
        (by simpa using by linarith) (by simpa using by linarith)
        hchain2 (fun u hu => hmem u (List.mem_cons_of_mem _ hu)) htend
      simp only at hih
      push_cast
      push_cast at hih
      linarith
    · rw [grantedCount_cons_neg m p s t ts hpos]
      have hih := ih (refillTokens m p s t) tend h2 h3
        (by simpa [refillTokens] using hchain2)
        (fun u hu => hmem u (List.mem_cons_of_mem _ hu))
        (by simpa [refillTokens] using htend)
      push_cast
      push_cast at hih
      have hlast : (refillTokens m p s t).lastRefilled = t := rfl
      rw [hlast] at hih
      linarith

/-- Invariants of running a time-ordered attempt list: the token count stays
in `(-1, m]` and the last-refilled stamp never exceeds any common upper
bound of the start stamp and the attempt times. -/
lemma runAttempts_spec (m p : ℚ) (hm : 0 ≤ m) (hp : 0 < p) :
    ∀ (ts : List ℚ) (s : RLState),
      s.tokens ≤ m → -1 < s.tokens →
      List.Chain (· ≤ ·) s.lastRefilled ts →
      (runAttempts m p s ts).tokens ≤ m ∧ -1 < (runAttempts m p s ts).tokens ∧
      ∀ u, s.lastRefilled ≤ u → (∀ t ∈ ts, t ≤ u) →
        (runAttempts m p s ts).lastRefilled ≤ u := by
  intro ts
  induction ts with
  | nil =>
    intro s hcap htok _
    exact ⟨hcap, htok, fun u hu _ => hu⟩
  | cons t ts ih =>
    intro s hcap htok hchain
    rw [List.chain_cons] at hchain
    obtain ⟨hst, hchain2⟩ := hchain
    have h2 := refillTokens_le_cap m p s t
    have h3 := refillTokens_gt_neg_one m p hm hp s t hst htok
    by_cases hpos : 0 < (refillTokens m p s t).tokens
    · rw [runAttempts_cons_pos m p s t ts hpos]
      have hih := ih ⟨(refillTokens m p s t).tokens - 1, t⟩
        (by simpa using by linarith) (by simpa using by linarith) hchain2
      refine ⟨hih.1, hih.2.1, fun u hu hmem => ?_⟩
      exact hih.2.2 u (hmem t (List.mem_cons_self t ts))
        (fun v hv => hmem v (List.mem_cons_of_mem _ hv))
    · rw [runAttempts_cons_neg m p s t ts hpos]
      have hih := ih (refillTokens m p s t) h2 h3
        (by simpa [refillTokens] using hchain2)
      refine ⟨hih.1, hih.2.1, fun u hu hmem => ?_⟩
      refine hih.2.2 u ?_ (fun v hv => hmem v (List.mem_cons_of_mem _ hv))
      show t ≤ u
      exact hmem t (List.mem_cons_self t ts)

end Generation

/-- C4 (amended): for every time-ordered sequence of `waitForToken`
acquisition attempts starting from the freshly constructed (full) bucket,
the rate limiter grants at most `2 * maxRequests` acquisitions whose
instants fall inside any rolling window `[w0, w0 + perSeconds)`.  The
originally claimed bound of `maxRequests` per rolling window does not hold:
a full bucket can be drained at the start of a window and continuously
refilled by up to `maxRequests` further tokens before the window closes. -/
theorem rateLimiter_rolling_window_bound (maxRequests : ℕ) (perSeconds : ℚ)
    (hper : 0 < perSeconds) (constructedAt w0 : ℚ) (pre win : List ℚ)
    (hchain : List.Chain (· ≤ ·) constructedAt (pre ++ win))
    (hwin : ∀ t ∈ win, w0 ≤ t ∧ t < w0 + perSeconds) :
    Generation.grantedCount maxRequests perSeconds
      (Generation.runAttempts maxRequests perSeconds
        (Generation.initialRLState maxRequests constructedAt) pre) win ≤
      2 * maxRequests := by
  have hm : (0 : ℚ) ≤ (maxRequests : ℚ) := Nat.cast_nonneg _
  rcases win with _ | ⟨w, ws⟩
  · rw [Generation.grantedCount_nil]
    exact Nat.zero_le _
  · have hpw : List.Pairwise (· ≤ ·) (constructedAt :: (pre ++ w :: ws)) :=
      List.chain_iff_pairwise.1 hchain
    have hsub : (constructedAt :: pre).Sublist (constructedAt :: (pre ++ w :: ws)) :=
      List.Sublist.cons₂ _ (List.sublist_append_left pre (w :: ws))
    have hchain_pre : List.Chain (· ≤ ·) constructedAt pre :=
      List.chain_iff_pairwise.2 (hpw.sublist hsub)
    obtain ⟨hcw, hpw2⟩ := List.pairwise_cons.1 hpw
    have hc_le_w : constructedAt ≤ w :=
      hcw w (List.mem_append_right pre (List.mem_cons_self w ws))
    obtain ⟨-, hpw_winl, hcross⟩ := List.pairwise_append.1 hpw2
    have hpre_le_w : ∀ t ∈ pre, t ≤ w := fun t ht =>
      hcross t ht w (List.mem_cons_self w ws)
    have hchain_ws : List.Chain (· ≤ ·) w ws :=
      List.chain_iff_pairwise.2 hpw_winl
    set s := Generation.runAttempts (maxRequests : ℚ) perSeconds
      (Generation.initialRLState (maxRequests : ℚ) constructedAt) pre with hs
    have hrun := Generation.runAttempts_spec (maxRequests : ℚ) perSeconds hm hper pre
      (Generation.initialRLState (maxRequests : ℚ) constructedAt)
      (le_refl _) (by show (-1 : ℚ) < (maxRequests : ℚ); linarith) hchain_pre
    have hscap : s.tokens ≤ (maxRequests : ℚ) := hrun.1
    have hstok : (-1 : ℚ) < s.tokens := hrun.2.1
    have hslast : s.lastRefilled ≤ w := hrun.2.2 w hc_le_w hpre_le_w
    have hww := hwin w (List.mem_cons_self w ws)
    have hws_mem : ∀ t ∈ ws, t ≤ w0 + perSeconds :=
      fun t ht => (hwin t (List.mem_cons_of_mem _ ht)).2.le
    have hw_end : w ≤ w0 + perSeconds := hww.2.le
    have h2 := Generation.refillTokens_le_cap (maxRequests : ℚ) perSeconds s w
    have h3 := Generation.refillTokens_gt_neg_one (maxRequests : ℚ) perSeconds hm hper
      s w hslast hstok
    have hrate : (w0 + perSeconds - w) * ((maxRequests : ℚ) / perSeconds) ≤
        (maxRequests : ℚ) := by
      have h4 : w0 + perSeconds - w ≤ perSeconds := by linarith [hww.1]
      have h5 : 0 ≤ (maxRequests : ℚ) / perSeconds := div_nonneg hm hper.le
      calc (w0 + perSeconds - w) * ((maxRequests : ℚ) / perSeconds)
          ≤ perSeconds * ((maxRequests : ℚ) / perSeconds) :=
            mul_le_mul_of_nonneg_right h4 h5
        _ = (maxRequests : ℚ) := by field_simp
    by_cases hpos : 0 < (Generation.refillTokens (maxRequests : ℚ) perSeconds s w).tokens
    · rw [Generation.grantedCount_cons_pos _ _ s w ws hpos]
      set gc := Generation.grantedCount ((maxRequests : ℕ) : ℚ) perSeconds
        ⟨(Generation.refillTokens (maxRequests : ℚ) perSeconds s w).tokens - 1, w⟩ ws
        with hgc
      have hg := Generation.grantedCount_lt (maxRequests : ℚ) perSeconds hm hper ws
        ⟨(Generation.refillTokens (maxRequests : ℚ) perSeconds s w).tokens - 1, w⟩
        (w0 + perSeconds)
        (by simpa using by linarith) (by simpa using by linarith)
        hchain_ws hws_mem hw_end
      simp only at hg
      rw [← hgc] at hg
      have hq : ((1 + gc : ℕ) : ℚ) < ((2 * maxRequests + 1 : ℕ) : ℚ) := by
        push_cast
        push_cast at hg
        linarith
      have := Nat.cast_lt (α := ℚ) |>.1 hq
      omega
    · rw [Generation.grantedCount_cons_neg _ _ s w ws hpos]
      set gc := Generation.grantedCount ((maxRequests : ℕ) : ℚ) perSeconds
        (Generation.refillTokens (maxRequests : ℚ) perSeconds s w) ws with hgc
      have hg := Generation.grantedCount_lt (maxRequests : ℚ) perSeconds hm hper ws
        (Generation.refillTokens (maxRequests : ℚ) perSeconds s w) (w0 + perSeconds)
        h2 h3 (by simpa [Generation.refillTokens] using hchain_ws) hws_mem
        (by simpa [Generation.refillTokens] using hw_end)
      rw [show (Generation.refillTokens (maxRequests : ℚ) perSeconds s w).lastRefilled
        = w from rfl] at hg
      rw [← hgc] at hg
      have hq : ((gc : ℕ) : ℚ) < ((2 * maxRequests + 1 : ℕ) : ℚ) := by
        push_cast
        push_cast at hg
        linarith
      have := Nat.cast_lt (α := ℚ) |>.1 hq
      omega

/-- C4 counterexample: with `maxRequests = 2`, `perSeconds = 1` and the
bucket constructed at time 0, the time-ordered acquisition attempts at
instants 0, 0, 1/2, 9/10 all lie inside the rolling window [0, 0 + 1) and
all four are granted, exceeding the claimed bound of `maxRequests = 2`
grants per rolling `perSeconds` window. -/
theorem rateLimiter_window_counterexample :
    Generation.grantedCount 2 1 (Generation.initialRLState 2 0)
      [0, 0, 1/2, 9/10] = 4 ∧
    List.Chain (· ≤ ·) (0 : ℚ) ([0, 0, 1/2, 9/10] : List ℚ) ∧
    ((0 : ℚ) ≤ 0 ∧ (0 : ℚ) < 0 + 1) ∧
    ((0 : ℚ) ≤ 1/2 ∧ (1/2 : ℚ) < 0 + 1) ∧
    ((0 : ℚ) ≤ 9/10 ∧ (9/10 : ℚ) < 0 + 1) ∧
    ¬(4 ≤ 2) := by
  refine ⟨?_, ?_, by norm_num, by norm_num, by norm_num, by norm_num⟩
  · norm_num [Generation.grantedCount, Generation.waitForTokenAttempt,
      Generation.refillTokens, Generation.initialRLState, min_def]
  · norm_num [List.chain_cons]

theorem rateLimiter_rolling_window_bound_witness :
    (0 : ℚ) < 1 ∧
    List.Chain (· ≤ ·) (0 : ℚ) ([] ++ [0, 1/2]) ∧
    Generation.grantedCount ((2 : ℕ) : ℚ) 1
      (Generation.runAttempts ((2 : ℕ) : ℚ) 1
        (Generation.initialRLState ((2 : ℕ) : ℚ) 0) []) [0, 1/2] ≤ 2 * 2 := by
  refine ⟨by norm_num, by norm_num [List.chain_cons], ?_⟩
  refine rateLimiter_rolling_window_bound 2 1 (by norm_num) 0 0 [] [0, 1/2]
    (by norm_num [List.chain_cons]) ?_
  intro t ht
  simp only [List.mem_cons, List.not_mem_nil, or_false] at ht
  rcases ht with rfl | rfl <;> norm_num
